import Mathlib

/-!
Verification of the response-normalization and log-append pipeline of
`src/app.py` (FastAPI tariff-classification service).

The Python source is shallowly embedded: decoded JSON values become the
inductive `JVal`; Python string operations are modelled on `List Char`;
fallible dynamic operations (attribute errors on non-strings, response
validation) return `Except Unit`; the remote GitHub contents API is an
environment of HTTP responses consumed in order, and the appender's remote
effects are recorded as a list of `GhAction`s.

Modelling notes (ambient-library behaviour, documented approximations):
* Python whitespace (`str.strip`, `\s`) is modelled by the six ASCII
  whitespace characters; Unicode-only whitespace is out of scope.
* Python's `\w` (regex word character) is modelled as ASCII alphanumeric,
  underscore, or any non-ASCII character (the non-ASCII text reaching the
  regexes in this program is Cyrillic letters, which are word characters).
* `str.upper`/`str.lower`/`str.capitalize` are modelled on ASCII letters.
* `json.loads` is modelled for integer numeric literals (no
  fraction/exponent -- floating point is not representable here) and for
  `\u` escapes denoting non-surrogate scalar values.
* `repr` of strings escapes the backslash, the quote, `\n`, `\r`, `\t` and
  other C0 controls as `\xHH`; other printable characters pass through.
* Transport base64 encode/decode of the log file is a bijection the
  appender applies at both ends; contents are modelled decoded.
-/

/-- The double-quote character (written by code point to keep source scanning simple). -/
def quoteD : Char := Char.ofNat 34

/-- The single-quote character. -/
def quoteS : Char := Char.ofNat 39

/-- The backslash character. -/
def bslash : Char := Char.ofNat 92

/-- The opening curly brace character. -/
def lbrace : Char := Char.ofNat 123

/-- The closing curly brace character. -/
def rbrace : Char := Char.ofNat 125

/-- ASCII whitespace as recognised by Python's `str.strip` and `\s`. -/
def pyIsSpace (c : Char) : Bool :=
  c = ' ' || c = '\t' || c = '\n' || c = '\r' || c = Char.ofNat 11 || c = Char.ofNat 12

/-- Drop characters satisfying `p` from the end of a list. -/
def dropEndWhile (p : Char → Bool) (l : List Char) : List Char :=
  (l.reverse.dropWhile p).reverse

/-- Python `str.strip()` on the character list. -/
def stripList (l : List Char) : List Char :=
  dropEndWhile pyIsSpace (l.dropWhile pyIsSpace)

/-- Python `str.strip()`. -/
def pyStrip (s : String) : String := String.mk (stripList s.data)

/-- Python `str.strip(chars)`: remove any of `cut` from both ends. -/
def stripBoth (cut : List Char) (s : String) : String :=
  String.mk (dropEndWhile (fun c => cut.contains c) (s.data.dropWhile (fun c => cut.contains c)))

/-- Python `str.replace(a, b)` for single characters. -/
def mapReplace (a b : Char) (l : List Char) : List Char :=
  l.map (fun c => if c = a then b else c)

/-- One pass of `re.sub(r"\s+", " ", s)`: the flag records whether the previous
input character was part of a whitespace run whose single space is already emitted. -/
def collapseAux : Bool → List Char → List Char
  | _, [] => []
  | inRun, c :: cs =>
    if pyIsSpace c then
      if inRun then collapseAux true cs else ' ' :: collapseAux true cs
    else c :: collapseAux false cs

/-- Model of `re.sub(r"\s+", " ", s)`: every maximal whitespace run becomes one space. -/
def collapseWs (l : List Char) : List Char := collapseAux false l

/-- Separator class of `re.split(r"[\n;]+", s)` in `_normalize_requirements`. -/
def isReqSep (c : Char) : Bool := c = '\n' || c = ';'

/-- Splitting on runs of `[\n;]`: the flag records being inside a separator run
(whose piece boundary is already emitted). -/
def splitRunsAux : Bool → List Char → List Char → List (List Char)
  | _, cur, [] => [cur.reverse]
  | inSep, cur, c :: cs =>
    if isReqSep c then
      if inSep then splitRunsAux true cur cs
      else cur.reverse :: splitRunsAux true [] cs
    else splitRunsAux false (c :: cur) cs

/-- Model of `re.split(r"[\n;]+", s)`. -/
def splitRuns (s : String) : List String :=
  (splitRunsAux false [] s.data).map String.mk

/-- Python `s.split(sep)` for a single-character separator. -/
def splitChAux (sep : Char) : List Char → List Char → List (List Char)
  | cur, [] => [cur.reverse]
  | cur, c :: cs =>
    if c = sep then cur.reverse :: splitChAux sep [] cs
    else splitChAux sep (c :: cur) cs

/-- Python `s.split(sep)` for a single-character separator. -/
def pySplit (sep : Char) (s : String) : List String :=
  (splitChAux sep [] s.data).map String.mk

/-- Python `sep.join(parts)`. -/
def joinWith (sep : String) : List String → String
  | [] => ""
  | [x] => x
  | x :: y :: rest => x ++ sep ++ joinWith sep (y :: rest)

/-- A decoded JSON value as produced by `json.loads` (numbers restricted to
integers, see the header note). -/
inductive JVal where
  | null : JVal
  | bool : Bool → JVal
  | intg : Int → JVal
  | str : String → JVal
  | arr : List JVal → JVal
  | obj : List (String × JVal) → JVal

/-- Python truthiness of a decoded JSON value. -/
def jtruthy : JVal → Bool
  | .null => false
  | .bool b => b
  | .intg n => !(n == 0)
  | .str s => !(s == "")
  | .arr l => !l.isEmpty
  | .obj kvs => !kvs.isEmpty

/-- Dictionary lookup (the parser below keeps keys unique, later value winning). -/
def jlookup : List (String × JVal) → String → Option JVal
  | [], _ => none
  | (k2, v) :: rest, k => if k2 = k then some v else jlookup rest k

/-- Python `data.get(k)`: `None` when the key is absent.  In `detect` the
argument is always a dict (`_extract_json_block` only yields objects); the
non-dict case is unreachable and mapped to `null`. -/
def jgetN (data : JVal) (k : String) : JVal :=
  match data with
  | .obj kvs => (jlookup kvs k).getD JVal.null
  | _ => JVal.null

/-- Lower-case hexadecimal digit for `repr`'s `\xHH` escapes. -/
def hexDigitCh (n : Nat) : Char :=
  if n < 10 then Char.ofNat (48 + n) else Char.ofNat (87 + n)

/-- How one character is written inside a Python string `repr` with quote `q`. -/
def strReprChar (q : Char) (c : Char) : List Char :=
  if c = bslash then [bslash, bslash]
  else if c = q then [bslash, q]
  else if c = '\n' then [bslash, 'n']
  else if c = '\r' then [bslash, 'r']
  else if c = '\t' then [bslash, 't']
  else if c.toNat < 32 then [bslash, 'x', hexDigitCh (c.toNat / 16), hexDigitCh (c.toNat % 16)]
  else [c]

/-- Python `repr` of a string: single quotes unless the string holds a single
quote but no double quote. -/
def pyStrRepr (s : String) : String :=
  let q := if s.data.contains quoteS && !(s.data.contains quoteD) then quoteD else quoteS
  String.mk (q :: (s.data.map (strReprChar q)).flatten ++ [q])

mutual
/-- Python `repr` of a decoded JSON value. -/
def pyRepr : JVal → String
  | .null => "None"
  | .bool b => if b then "True" else "False"
  | .intg n => toString n
  | .str s => pyStrRepr s
  | .arr l => "[" ++ joinWith ", " (pyReprList l) ++ "]"
  | .obj kvs => String.mk [lbrace] ++ joinWith ", " (pyReprPairs kvs) ++ String.mk [rbrace]
/-- Repr of the elements of a list value. -/
def pyReprList : List JVal → List String
  | [] => []
  | v :: vs => pyRepr v :: pyReprList vs
/-- Repr of the members of a dict value. -/
def pyReprPairs : List (String × JVal) → List String
  | [] => []
  | (k, v) :: kvs => (pyStrRepr k ++ ": " ++ pyRepr v) :: pyReprPairs kvs
end

/-- Python `str` of a decoded JSON value (`str` of a string is itself,
containers and scalars print as their `repr`). -/
def pyStr : JVal → String
  | .str s => s
  | v => pyRepr v

/-- Python `str.upper` (ASCII model). -/
def pyUpper (s : String) : String := String.mk (s.data.map Char.toUpper)

/-- Python `str.capitalize` (ASCII model): first character upper, rest lower. -/
def pyCapitalize (s : String) : String :=
  match s.data with
  | [] => ""
  | c :: cs => String.mk (c.toUpper :: cs.map Char.toLower)

/-- Whether `s` starts with `pre` (on the underlying characters). -/
def listStarts : List Char → List Char → Bool
  | _, [] => true
  | [], _ :: _ => false
  | c :: cs, p :: ps => c == p && listStarts cs ps

/-- Python `s.startswith(pre)`. -/
def strStarts (s pre : String) : Bool := listStarts s.data pre.data

/-- Core of `_clean_field` (src/app.py:45-53) after `str(val)`:
`replace("\r"," ")`, `replace("\n"," ")`, collapse `\s+` to one space,
`strip()`, then `replace(";", ",")`. -/
def cleanCore (l : List Char) : List Char :=
  mapReplace ';' ',' (stripList (collapseWs (mapReplace '\n' ' ' (mapReplace '\r' ' ' l))))

/-- Translation of `_clean_field` (src/app.py:45-53): `None` becomes the empty string, any
other value is stringified and sanitised. -/
def _clean_field : JVal → String
  | .null => ""
  | v => String.mk (cleanCore (pyStr v).data)

/-- Rendering of one dict value inside `_stringify_tech31` (src/app.py:61-74):
lists join their stripped non-empty members with "; ", dicts join
`key: value` pairs with "; ", anything else is `str(v).strip()`. -/
def tech31Value : JVal → String
  | .arr l => joinWith "; " ((l.map (fun x => pyStrip (pyStr x))).filter (fun s => !(s == "")))
  | .obj kvs => joinWith "; " (kvs.map (fun kv => kv.1 ++ ": " ++ pyStr kv.2))
  | v => pyStrip (pyStr v)

/-- Translation of `_stringify_tech31` (src/app.py:55-77). -/
def _stringify_tech31 : JVal → String
  | .null => ""
  | .str s => pyStrip s
  | .obj kvs =>
      joinWith "\n" (kvs.filterMap (fun kv =>
        let vS := tech31Value kv.2
        if vS == "" then none
        else some ("- " ++ pyCapitalize (pyStrip kv.1) ++ ": " ++ vS)))
  | .arr l =>
      joinWith "\n" ((l.map (fun x => pyStrip (pyStr x))).filterMap
        (fun s => if s == "" then none else some ("- " ++ s)))
  | v => pyStrip (pyStr v)

/-- One alternative-code entry `{'code': ..., 'reason': ...}`. -/
structure AltItem where
  code : String
  reason : String

/-- Python `it.get(k, "")`. -/
def jGetOr (kvs : List (String × JVal)) (k : String) : JVal :=
  (jlookup kvs k).getD (JVal.str "")

/-- Python `a or b`. -/
def orJ (a b : JVal) : JVal := if jtruthy a then a else b

/-- Translation of `_normalize_alternatives` (src/app.py:79-95). -/
def _normalize_alternatives : JVal → List AltItem
  | .obj kvs => kvs.map (fun kv => ⟨kv.1, pyStr kv.2⟩)
  | .arr l => l.map (fun it =>
      match it with
      | .obj kvs =>
          ⟨pyStr (orJ (jGetOr kvs "code") (orJ (jGetOr kvs "код") (JVal.str ""))),
           pyStr (orJ (jGetOr kvs "reason") (orJ (jGetOr kvs "обоснование") (JVal.str "")))⟩
      | x => ⟨pyStr x, ""⟩)
  | v => if jtruthy v then [⟨pyStr v, ""⟩] else []

/-- The payment breakdown record. -/
structure Payments where
  duty : String
  vat : String
  excise : String
  fees : String

/-- One field of `_normalize_payments`: `if k in val and val[k] is not None:
d[k] = str(val[k]).strip()`. -/
def payField (kvs : List (String × JVal)) (k : String) (dflt : String) : String :=
  match jlookup kvs k with
  | some .null => dflt
  | some v => pyStrip (pyStr v)
  | none => dflt

/-- Translation of `_normalize_payments` (src/app.py:97-104). -/
def _normalize_payments : JVal → String → String → Payments
  | .obj kvs, fd, fv =>
      ⟨payField kvs "duty" fd, payField kvs "vat" fv,
       payField kvs "excise" "—", payField kvs "fees" "—"⟩
  | _, fd, fv => ⟨fd, fv, "—", "—"⟩

/-- Translation of `_normalize_requirements` (src/app.py:106-116). -/
def _normalize_requirements : JVal → List String
  | .arr l => (l.map (fun x => pyStrip (pyStr x))).filter (fun s => !(s == ""))
  | .str s =>
      let items := ((splitRuns s).filter (fun f => !(pyStrip f == ""))).map
        (stripBoth [' ', '-', '•', '\t'])
      if items.isEmpty then [pyStrip s] else items
  | v => if jtruthy v then [pyStr v] else []

/-- Python regex word character `\w` (see the header note on the ASCII model). -/
def wordChar (c : Char) : Bool := c.isAlphanum || c = '_' || Nat.ble 128 c.toNat

/-- Word boundary `\b` to the left of a digit: start of text or non-word before. -/
def boundaryL : Option Char → Bool
  | none => true
  | some p => !wordChar p

/-- Word boundary `\b` to the right of a digit: end of text or non-word after. -/
def boundaryR : List Char → Bool
  | [] => true
  | c :: _ => !wordChar c

/-- Whether the list begins with exactly ten decimal digits. -/
def tenHere (l : List Char) : Bool :=
  (l.take 10).length == 10 && (l.take 10).all Char.isDigit

/-- Leftmost match of `\b\d{10}\b` (`TEN_DIGITS.search`), scanning with the
previous character for the left boundary. -/
def scanTen : Option Char → List Char → Option (List Char)
  | _, [] => none
  | prev, c :: cs =>
    if boundaryL prev && tenHere (c :: cs) && boundaryR ((c :: cs).drop 10)
    then some ((c :: cs).take 10)
    else scanTen (some c) cs

/-- Translation of `_take_10digits` (src/app.py:207-211): falsy input yields `""`, else spaces
are removed and the first standalone ten-digit run is returned (or `""`). -/
def _take_10digits (s : String) : String :=
  if s = "" then ""
  else
    match scanTen none (s.data.filter (fun c => !(c = ' '))) with
    | some ds => String.mk ds
    | none => ""

/-- The optional fraction part `(\.\d+)?` after the integer digits: present
exactly when a dot directly followed by a digit comes next. -/
def grabFrac : List Char → List Char
  | c :: d :: r2 => if c = '.' && d.isDigit then '.' :: (d :: r2).takeWhile Char.isDigit else []
  | _ => []

/-- The numeric token the regex `(\d+(\.\d+)?)\s*%?` captures at a position
whose head is a digit: maximal digits, then the optional fraction. -/
def grabNum (l : List Char) : List Char :=
  l.takeWhile Char.isDigit ++ grabFrac (l.dropWhile Char.isDigit)

/-- Model of `re.search` for `(\d+(\.\d+)?)\s*%?`: the leftmost match starts at the
first digit. -/
def findNum : List Char → Option (List Char)
  | [] => none
  | c :: cs => if c.isDigit then some (grabNum (c :: cs)) else findNum cs

/-- Translation of `_norm_percent` (src/app.py:213-218): falsy input yields `""`; otherwise
strip, commas to dots, first numeric token plus `%`, `""` when none. -/
def _norm_percent (s : String) : String :=
  if s = "" then ""
  else
    match findNum (mapReplace ',' '.' (stripList s.data)) with
    | some t => String.mk t ++ "%"
    | none => ""

/-- JSON whitespace skipped by `json.loads`. -/
def jsonWs (c : Char) : Bool := c = ' ' || c = '\t' || c = '\n' || c = '\r'

/-- Skip JSON whitespace. -/
def skipJWs (l : List Char) : List Char := l.dropWhile jsonWs

/-- Value of one hexadecimal digit. -/
def hexVal (c : Char) : Option Nat :=
  if '0' ≤ c && c ≤ '9' then some (c.toNat - 48)
  else if 'a' ≤ c && c ≤ 'f' then some (c.toNat - 87)
  else if 'A' ≤ c && c ≤ 'F' then some (c.toNat - 55)
  else none

/-- Single-character JSON string escapes. -/
def jUnescape (c : Char) : Option Char :=
  if c = quoteD then some quoteD
  else if c = bslash then some bslash
  else if c = '/' then some '/'
  else if c = 'b' then some (Char.ofNat 8)
  else if c = 'f' then some (Char.ofNat 12)
  else if c = 'n' then some '\n'
  else if c = 'r' then some '\r'
  else if c = 't' then some '\t'
  else none

/-- Body of a JSON string after the opening quote, per `json.loads` in strict
mode: raw control characters are rejected; `\u` is restricted to non-surrogate
scalars (see the header note). -/
def parseJStrAux (acc : List Char) : List Char → Option (String × List Char)
  | [] => none
  | c :: cs =>
    if c = quoteD then some (String.mk acc.reverse, cs)
    else if c = bslash then
      match cs with
      | [] => none
      | e :: cs2 =>
        if e = 'u' then
          match cs2 with
          | a :: b :: c3 :: d :: cs3 =>
            match hexVal a, hexVal b, hexVal c3, hexVal d with
            | some va, some vb, some vc, some vd =>
              let n := ((va * 16 + vb) * 16 + vc) * 16 + vd
              if n < 55296 || 57344 ≤ n then parseJStrAux (Char.ofNat n :: acc) cs3
              else none
            | _, _, _, _ => none
          | _ => none
        else
          match jUnescape e with
          | some ch => parseJStrAux (ch :: acc) cs2
          | none => none
    else if c.toNat < 32 then none
    else parseJStrAux (c :: acc) cs

/-- Decimal value of a digit list. -/
def digitsToNat (ds : List Char) : Nat :=
  ds.foldl (fun a c => a * 10 + (c.toNat - 48)) 0

/-- JSON integer literal: optional minus, `0` or a no-leading-zero digit run;
a following `.`, `e` or `E` would make it a float, which this model rejects
(see the header note). -/
def parseJInt (l : List Char) : Option (Int × List Char) :=
  let neg := match l with | c :: _ => c == '-' | [] => false
  let l1 := if neg then l.tail else l
  let ds := l1.takeWhile Char.isDigit
  let rest := l1.dropWhile Char.isDigit
  if ds.isEmpty then none
  else if 1 < ds.length && ds.headD '0' = '0' then none
  else
    match rest with
    | c :: _ =>
        if c = '.' || c = 'e' || c = 'E' then none
        else some (if neg then -(digitsToNat ds : Int) else (digitsToNat ds : Int), rest)
    | [] => some (if neg then -(digitsToNat ds : Int) else (digitsToNat ds : Int), rest)

/-- Dict insertion with Python semantics: a repeated key keeps its position and
takes the new value. -/
def objInsert (kvs : List (String × JVal)) (k : String) (v : JVal) : List (String × JVal) :=
  if kvs.any (fun kv => kv.1 == k) then kvs.map (fun kv => if kv.1 == k then (k, v) else kv)
  else kvs ++ [(k, v)]

mutual
/-- One JSON value (fuel-structural recursive descent). -/
def parseJVal : Nat → List Char → Option (JVal × List Char)
  | 0, _ => none
  | fuel + 1, l =>
    match skipJWs l with
    | [] => none
    | c :: cs =>
      if c = lbrace then
        match skipJWs cs with
        | c2 :: cs2 =>
            if c2 = rbrace then some (JVal.obj [], cs2)
            else parseJPairs fuel [] (c2 :: cs2)
        | [] => none
      else if c = '[' then
        match skipJWs cs with
        | c2 :: cs2 =>
            if c2 = ']' then some (JVal.arr [], cs2)
            else parseJItems fuel [] (c2 :: cs2)
        | [] => none
      else if c = quoteD then
        match parseJStrAux [] cs with
        | some (s, r) => some (JVal.str s, r)
        | none => none
      else
        match c :: cs with
        | 'n' :: 'u' :: 'l' :: 'l' :: r => some (JVal.null, r)
        | 't' :: 'r' :: 'u' :: 'e' :: r => some (JVal.bool true, r)
        | 'f' :: 'a' :: 'l' :: 's' :: 'e' :: r => some (JVal.bool false, r)
        | l2 =>
          match parseJInt l2 with
          | some (n, r) => some (JVal.intg n, r)
          | none => none
/-- The remaining comma-separated items of a non-empty array, including its
closing bracket. -/
def parseJItems : Nat → List JVal → List Char → Option (JVal × List Char)
  | 0, _, _ => none
  | fuel + 1, acc, l =>
    match parseJVal fuel l with
    | none => none
    | some (v, r) =>
      match skipJWs r with
      | c :: cs =>
          if c = ',' then parseJItems fuel (acc ++ [v]) cs
          else if c = ']' then some (JVal.arr (acc ++ [v]), cs)
          else none
      | [] => none
/-- The remaining members of a non-empty object, including its closing brace. -/
def parseJPairs : Nat → List (String × JVal) → List Char → Option (JVal × List Char)
  | 0, _, _ => none
  | fuel + 1, acc, l =>
    match skipJWs l with
    | c :: cs =>
      if c = quoteD then
        match parseJStrAux [] cs with
        | none => none
        | some (k, r1) =>
          match skipJWs r1 with
          | c2 :: cs2 =>
            if c2 = ':' then
              match parseJVal fuel cs2 with
              | none => none
              | some (v, r2) =>
                match skipJWs r2 with
                | c3 :: cs3 =>
                    if c3 = ',' then parseJPairs fuel (objInsert acc k v) cs3
                    else if c3 = rbrace then some (JVal.obj (objInsert acc k v), cs3)
                    else none
                | [] => none
            else none
          | [] => none
      else none
    | [] => none
end

/-- Model of `json.loads`: parse one value, allow trailing whitespace only.  The fuel
`2 * length + 8` dominates the recursion depth (each unit of fuel spent
accompanies consuming at least half a character of input). -/
def jsonLoads (s : String) : Option JVal :=
  match parseJVal (2 * s.length + 8) s.data with
  | some (v, r) => if skipJWs r = [] then some v else none
  | none => none

/-- Index of the last occurrence of `c` (Python `str.rfind`, as an `Option`). -/
def lastIdxOf (c : Char) (l : List Char) : Option Nat :=
  match l.reverse.findIdx? (fun x => x = c) with
  | some i => some (l.length - 1 - i)
  | none => none

/-- Python slice `l[start:stop]` for non-negative bounds. -/
def sliceList (l : List Char) (start stop : Nat) : List Char :=
  (l.drop start).take (stop - start)

/-- Translation of `_extract_json_block` (src/app.py:220-231): falsy text gives `None`;
otherwise the slice from the first brace through the last closing brace is fed
to `json.loads`, and every failure (no opening brace -- `index` raises -- no
closing brace, malformed JSON) gives `None`. -/
def _extract_json_block (text : String) : Option JVal :=
  if text = "" then none
  else
    match text.data.findIdx? (fun c => c = lbrace) with
    | none => none
    | some start =>
      let stop := match lastIdxOf rbrace text.data with
        | some j => j + 1
        | none => 0
      jsonLoads (String.mk (sliceList text.data start stop))

/-- The response record the endpoint builds (`DetectOut`, src/app.py:191-202,
with every optional field filled as `detect` fills it). -/
structure DetectOut where
  code : String
  duty : String
  vat : String
  raw : String
  description : String
  tech31 : String
  classification_reason : String
  alternatives : List AltItem
  payments : Payments
  requirements : List String

/-- Python `(v or "")` followed by a string-only use (`.strip()`, or a
`str`-typed response field): a falsy value becomes `""`, a truthy string
passes, and a truthy non-string raises (`AttributeError` on `.strip`,
validation error on the response model). -/
def pyFieldStr (v : JVal) : Except Unit String :=
  if jtruthy v then
    match v with
    | .str s => Except.ok s
    | _ => Except.error ()
  else Except.ok ""

/-- The code fallback of `detect` (src/app.py:291-294): when the extracted
code holds no ten-digit run, guess from the whole reply text, else keep an
`UNKNOWN...`-prefixed extracted code, else empty. -/
def recoverCode (text code0 : String) : String :=
  if _take_10digits code0 == "" then
    let guessed := _take_10digits text
    if guessed == "" then
      if strStarts (pyUpper code0) "UNKNOWN" then code0 else ""
    else guessed
  else code0

/-- The dict `detect` works from: `_extract_json_block(text) or {}`
(src/app.py:288). -/
def detectData (text : String) : JVal :=
  match _extract_json_block text with
  | some d => d
  | none => JVal.obj []

/-- The response-assembly phase of `detect` (src/app.py:285-320) for a given
reply text and extracted dict: field recovery, percent normalization,
defaulting, and the four normalizers.  All dynamic failures collapse to one
`Except.error`. -/
def assembleFrom (text : String) (data : JVal) : Except Unit DetectOut :=
  (pyFieldStr (jgetN data "code")).bind (fun codeRaw =>
  (pyFieldStr (jgetN data "duty")).bind (fun dutyRaw =>
  (pyFieldStr (jgetN data "vat")).bind (fun vatRaw =>
  (pyFieldStr (jgetN data "description")).bind (fun descr =>
  (pyFieldStr (jgetN data "classification_reason")).bind (fun creason =>
    let code1 := recoverCode text (pyStrip codeRaw)
    let duty0 := _norm_percent dutyRaw
    let vat0 := _norm_percent vatRaw
    let code := if code1 == "" then "UNKNOWN" else code1
    let duty := if duty0 == "" then "UNKNOWN" else duty0
    let vat := if vat0 == "" then "UNKNOWN" else vat0
    Except.ok
      ⟨code, duty, vat, text, descr,
       _stringify_tech31 (jgetN data "tech31"), creason,
       _normalize_alternatives (jgetN data "alternatives"),
       _normalize_payments (jgetN data "payments") duty vat,
       _normalize_requirements (jgetN data "requirements")⟩)))))

/-- Translation of `detect` from the reply text onward (src/app.py:285-320): the reply is
stripped, a JSON block extracted best-effort, and the response assembled. -/
def detectAssemble (reply : String) : Except Unit DetectOut :=
  assembleFrom (pyStrip reply) (detectData (pyStrip reply))

/-- Whether `s` is exactly ten ASCII digits. -/
def isTenDigits (s : String) : Bool :=
  s.data.length == 10 && s.data.all Char.isDigit

/-- Whether `s` is a decimal number followed by `%`: digits, an optional
dot-digits fraction, then a final percent sign. -/
def isPctShape (s : String) : Bool :=
  let ds := s.data.takeWhile Char.isDigit
  let r := s.data.dropWhile Char.isDigit
  !ds.isEmpty &&
    (r == ['%'] ||
      (match r with
       | c :: r2 =>
           c == '.' && !(r2.takeWhile Char.isDigit).isEmpty &&
             (r2.dropWhile Char.isDigit == ['%'])
       | [] => false))

/-- The final code shapes `detect` can produce: the `UNKNOWN` default, exactly
ten digits (a run guessed from the reply text), an extracted code kept because
it holds a standalone ten-digit run, or an extracted code kept because it
starts with `UNKNOWN` (case-insensitive). -/
def codeOk (s : String) : Bool :=
  !(s == "") &&
    (s == "UNKNOWN" || isTenDigits s || !(_take_10digits s == "") ||
      strStarts (pyUpper s) "UNKNOWN")

/-- The final duty/vat shapes: the `UNKNOWN` default or a percent value. -/
def pctOk (s : String) : Bool := s == "UNKNOWN" || isPctShape s

/-- QUOTE_MINIMAL of `csv.writer` with delimiter `;`: a field is quoted when it
holds the delimiter, the quote character, or a line-terminator character. -/
def csvNeedsQuote (f : String) : Bool :=
  f.data.any (fun c => c = ';' || c = quoteD || c = '\n' || c = '\r')

/-- Double every quote character (csv quoting). -/
def escDouble : List Char → List Char
  | [] => []
  | c :: cs => if c = quoteD then c :: c :: escDouble cs else c :: escDouble cs

/-- One serialized csv field. -/
def csvQuote (f : String) : String :=
  if csvNeedsQuote f then String.mk (quoteD :: escDouble f.data ++ [quoteD]) else f

/-- Model of `csv.writer(out, delimiter=";").writerow(row)` (src/app.py:144): fields
joined with `;`, default line terminator `\r\n`. -/
def csvRowLine (row : List String) : String :=
  joinWith ";" (row.map csvQuote) ++ "\r\n"

/-- The header row written when the remote file is absent or empty
(src/app.py:143). -/
def csvHeader : String := "ts_iso;ip;manufacturer;product;extra;code;duty;vat;user_agent\n"

/-- One GET response of the GitHub contents API as the appender reads it:
status, the `sha` field of the JSON body, and the (decoded) `content` field,
`""` when absent. -/
structure GetResp where
  status : Nat
  sha : Option String
  content : String

/-- The remote responses one append run can consume, in order: first GET,
first PUT status, conflict-refetch GET, retry PUT status. -/
structure GhEnv where
  get1 : GetResp
  put1Status : Nat
  get2 : GetResp
  put2Status : Nat

/-- A remote request the appender issues: a contents GET, or a contents PUT
carrying the new file content and the `sha` field included in the payload. -/
inductive GhAction where
  | getContents : GhAction
  | putContents : String → Option String → GhAction
deriving DecidableEq

/-- Python truthiness of a credential variable: unset or empty disables. -/
def credOk : Option String → Bool
  | none => false
  | some s => !(s == "")

/-- The sha payload field: `payload["sha"] = sha` happens only `if sha:` (src/app.py:41-42). -/
def shaPayload : Option String → Option String
  | none => none
  | some s => if s == "" then none else some s

/-- The new file content (src/app.py:139-144): the old content when non-empty,
else the header, plus one csv row. -/
def newCsvContent (old : String) (row : List String) : String :=
  (if old == "" then csvHeader else old) ++ csvRowLine row

/-- The PUT phase of the appender (src/app.py:148-161), given the content-build
inputs from the GET phase: a successful first PUT ends the run; a 409 triggers
one refetch and, only when that refetch returns 200, one retry with the
refetched `sha` but the already-built content; anything else is only logged. -/
def ghPutPhase (env : GhEnv) (row : List String) (old : String) (sha : Option String) :
    List GhAction :=
  let content := newCsvContent old row
  let firstTry := [GhAction.getContents, GhAction.putContents content (shaPayload sha)]
  if env.put1Status = 200 || env.put1Status = 201 then firstTry
  else if env.put1Status = 409 then
    if env.get2.status = 200 then
      firstTry ++ [GhAction.getContents,
                   GhAction.putContents content (shaPayload env.get2.sha)]
    else firstTry ++ [GhAction.getContents]
  else firstTry

/-- Translation of `append_row_and_push_to_github` (src/app.py:118-161), as the list of remote
actions it performs against the response environment `env` with the three
GitHub settings: missing credentials are a silent no-op; a 200 GET supplies old
content and sha; 404 and 409 start a fresh file; any other GET status aborts. -/
def append_row_and_push_to_github (env : GhEnv) (token owner repo : Option String)
    (row : List String) : List GhAction :=
  if !(credOk token && credOk owner && credOk repo) then []
  else if env.get1.status = 200 then
    ghPutPhase env row env.get1.content env.get1.sha
  else if env.get1.status = 404 || env.get1.status = 409 then
    ghPutPhase env row "" none
  else [GhAction.getContents]

theorem scanTen_shape : ∀ (l : List Char) (prev : Option Char) (ds : List Char),
    scanTen prev l = some ds → ds.length = 10 ∧ ds.all Char.isDigit = true := by
  intro l
  induction l with
  | nil => intro prev ds h; simp [scanTen] at h
  | cons c cs ih =>
    intro prev ds h
    unfold scanTen at h
    split at h
    · rename_i hguard
      have hten : tenHere (c :: cs) = true := by
        simp only [Bool.and_eq_true] at hguard
        exact hguard.1.2
      simp only [tenHere, Bool.and_eq_true, beq_iff_eq] at hten
      cases h
      exact ⟨hten.1, hten.2⟩
    · exact ih (some c) ds h

theorem take10_shape (s : String) :
    _take_10digits s = "" ∨ isTenDigits (_take_10digits s) = true := by
  unfold _take_10digits
  split
  · exact Or.inl rfl
  · cases hscan : scanTen none (s.data.filter fun c => !(c = ' ')) with
    | none => simp [hscan]
    | some ds =>
      right
      obtain ⟨h1, h2⟩ := scanTen_shape _ none ds hscan
      simp [hscan, isTenDigits, h1, h2]

/-- C3: when the extracted code holds no standalone ten-digit run, the first
standalone ten-digit run of the whole (space-stripped) reply text is used --
and is itself ten digits; when the text holds none either, an extracted code
starting with `UNKNOWN` (case-insensitive) is preserved, and otherwise the
code is left empty for later defaulting. -/
theorem code_recovery_rule (text code0 : String)
    (h : _take_10digits code0 = "") :
    (_take_10digits text ≠ "" →
       recoverCode text code0 = _take_10digits text ∧
       isTenDigits (recoverCode text code0) = true) ∧
    (_take_10digits text = "" → strStarts (pyUpper code0) "UNKNOWN" = true →
       recoverCode text code0 = code0) ∧
    (_take_10digits text = "" → strStarts (pyUpper code0) "UNKNOWN" = false →
       recoverCode text code0 = "") := by
  unfold recoverCode
  simp only [h, beq_self_eq_true, if_true]
  refine ⟨fun hg => ?_, fun hg hu => ?_, fun hg hu => ?_⟩
  · have hgb : (_take_10digits text == "") = false := by
      simpa [beq_iff_eq] using hg
    rcases take10_shape text with h10 | h10
    · exact absurd h10 hg
    · simp [hgb, h10]
  · simp [hg, hu]
  · simp [hg, hu]

theorem code_recovery_rule_witness :
    recoverCode "kod: 8471300000." "" = _take_10digits "kod: 8471300000." ∧
    isTenDigits (recoverCode "kod: 8471300000." "") = true :=
  (code_recovery_rule "kod: 8471300000." "" rfl).1 (by decide)

/-- C4: the reply extractor degrades to an empty mapping on failure (the
pipeline then proceeds from the empty dict), and when the text is exactly a
valid JSON object -- it begins with the opening brace and ends with the
closing brace and parses -- extraction recovers exactly the parsed object,
every field unchanged. -/
theorem extract_block_spec :
    (∀ t : String, _extract_json_block t = none → detectData t = JVal.obj []) ∧
    (∀ (t : String) (v : JVal),
       t.data.head? = some lbrace → t.data.getLast? = some rbrace →
       jsonLoads t = some v → _extract_json_block t = some v) := by
  constructor
  · intro t h; unfold detectData; simp [h]
  · intro t v hh hl hj
    unfold _extract_json_block
    have hne : ¬ t = "" := by
      intro he; subst he; simp at hh
    rw [if_neg hne]
    obtain ⟨rest, hdata⟩ : ∃ rest, t.data = lbrace :: rest := by
      cases hd : t.data with
      | nil => rw [hd] at hh; simp at hh
      | cons a as =>
        rw [hd] at hh
        simp only [List.head?] at hh
        injection hh with h2
        exact ⟨as, by rw [h2]⟩
    have hfind : t.data.findIdx? (fun c => c = lbrace) = some 0 := by
      rw [hdata]; simp [List.findIdx?]
    have hrev : ∃ rrest, t.data.reverse = rbrace :: rrest := by
      cases hr : t.data.reverse with
      | nil =>
        exfalso
        have : t.data = [] := by
          have := congrArg List.reverse hr
          simpa using this
        rw [this] at hh; simp at hh
      | cons b bs =>
        refine ⟨bs, ?_⟩
        have : t.data.getLast? = some b := by
          rw [← List.head?_reverse, hr]; rfl
        rw [this] at hl
        injection hl with h2; rw [h2]
    obtain ⟨rrest, hrevd⟩ := hrev
    have hlast : lastIdxOf rbrace t.data = some (t.data.length - 1) := by
      unfold lastIdxOf
      rw [hrevd]
      simp [List.findIdx?]
    rw [hfind, hlast]
    have hlen : 1 ≤ t.data.length := by rw [hdata]; simp
    have hstop : t.data.length - 1 + 1 = t.data.length := Nat.succ_pred_eq_of_pos hlen
    have hslice : sliceList t.data 0 (t.data.length - 1 + 1) = t.data := by
      unfold sliceList
      rw [hstop]
      simp
    show jsonLoads (String.mk (sliceList t.data 0 (t.data.length - 1 + 1))) = some v
    rw [hslice]
    exact hj

theorem extract_block_spec_witness :
    (detectData "no json here" = JVal.obj []) ∧
    (_extract_json_block "\x7b\"a\": 1\x7d" = some (JVal.obj [("a", JVal.intg 1)])) :=
  ⟨extract_block_spec.1 "no json here" rfl,
   extract_block_spec.2 "\x7b\"a\": 1\x7d" (JVal.obj [("a", JVal.intg 1)]) rfl rfl rfl⟩

/-- C8: with any of the three GitHub settings unset (or empty, which Python
treats the same), the appender performs no remote action at all -- no fetch,
no write -- so the remote file is untouched; the response was already computed
before the appender runs. -/
theorem gh_append_noop_without_creds (env : GhEnv) (token owner repo : Option String)
    (row : List String)
    (h : credOk token = false ∨ credOk owner = false ∨ credOk repo = false) :
    append_row_and_push_to_github env token owner repo row = [] := by
  unfold append_row_and_push_to_github
  rcases h with h | h | h <;> simp [h]

theorem gh_append_noop_without_creds_witness :
    append_row_and_push_to_github ⟨⟨200, some "s", "c"⟩, 201, ⟨200, none, ""⟩, 201⟩
      none (some "o") (some "r") ["x"] = [] :=
  gh_append_noop_without_creds ⟨⟨200, some "s", "c"⟩, 201, ⟨200, none, ""⟩, 201⟩
    none (some "o") (some "r") ["x"] (Or.inl rfl)

/-- C10: a 409 on the initial fetch behaves exactly like a 404 (the appender
starts a fresh file: header plus the new row, written with no revision token),
and any initial-fetch status other than 200, 404 and 409 aborts after the
single GET. -/
theorem gh_append_get_conflict_as_not_found
    (env : GhEnv) (token owner repo : Option String) (row : List String)
    (sh sh2 : Option String) (ct ct2 : String) :
    (append_row_and_push_to_github ⟨⟨409, sh, ct⟩, env.put1Status, env.get2, env.put2Status⟩
        token owner repo row =
      append_row_and_push_to_github ⟨⟨404, sh2, ct2⟩, env.put1Status, env.get2, env.put2Status⟩
        token owner repo row) ∧
    (credOk token = true → credOk owner = true → credOk repo = true →
      env.get1.status = 404 ∨ env.get1.status = 409 → env.put1Status = 201 →
      append_row_and_push_to_github env token owner repo row =
        [GhAction.getContents, GhAction.putContents (csvHeader ++ csvRowLine row) none]) ∧
    (credOk token = true → credOk owner = true → credOk repo = true →
      env.get1.status ≠ 200 → env.get1.status ≠ 404 → env.get1.status ≠ 409 →
      append_row_and_push_to_github env token owner repo row = [GhAction.getContents]) := by
  refine ⟨?_, ?_, ?_⟩
  · unfold append_row_and_push_to_github ghPutPhase
    by_cases hc : credOk token && credOk owner && credOk repo
    · simp [hc]
    · simp [hc]
  · intro ht ho hr hst hp
    unfold append_row_and_push_to_github
    rcases hst with hst | hst <;>
      simp [ht, ho, hr, hst, ghPutPhase, hp, newCsvContent, shaPayload]
  · intro ht ho hr h200 h404 h409
    unfold append_row_and_push_to_github
    simp [ht, ho, hr, h200, h404, h409]

theorem gh_append_get_conflict_as_not_found_witness :
    append_row_and_push_to_github ⟨⟨409, some "zz", "old"⟩, 201, ⟨200, none, ""⟩, 201⟩
        (some "t") (some "o") (some "r") ["a", "b"] =
      [GhAction.getContents, GhAction.putContents (csvHeader ++ csvRowLine ["a", "b"]) none] :=
  (gh_append_get_conflict_as_not_found ⟨⟨409, some "zz", "old"⟩, 201, ⟨200, none, ""⟩, 201⟩
      (some "t") (some "o") (some "r") ["a", "b"] none none "" "").2.1
    rfl rfl rfl (Or.inr rfl) rfl

/-- C1 counterexample: first write conflicts, refetch sees intervening content
`"H\nA\nB\n"`, yet the retried write carries the content built from the
original fetch (`"H\nA\n"` plus the row) with only the refreshed token -- not
the intervening content plus the row, which the claim requires. -/
theorem gh_append_conflict_claim_cex :
    append_row_and_push_to_github
        ⟨⟨200, some "r1", "H\nA\n"⟩, 409, ⟨200, some "r2", "H\nA\nB\n"⟩, 201⟩
        (some "t") (some "o") (some "p") ["x"] =
      [GhAction.getContents, GhAction.putContents "H\nA\nx\r\n" (some "r1"),
       GhAction.getContents, GhAction.putContents "H\nA\nx\r\n" (some "r2")] ∧
    "H\nA\nx\r\n" ≠ "H\nA\nB\n" ++ csvRowLine ["x"] := by
  constructor
  · decide
  · decide

/-- C1 (amended): on a first-write 409 with a successful refetch, the appender
refetches exactly once and retries exactly once with the refreshed revision
token, but re-sends the content computed from the original fetch, so the final
file equals the originally fetched content plus exactly one new data row;
intervening changes are overwritten, not merged. -/
theorem gh_append_conflict_retry_resends_original
    (token owner repo : Option String) (row : List String)
    (c0 c1 : String) (s0 s1 : String)
    (ht : credOk token = true) (ho : credOk owner = true) (hr : credOk repo = true)
    (hc0 : ¬ c0 = "") (hs0 : ¬ s0 = "") (hs1 : ¬ s1 = "") :
    append_row_and_push_to_github ⟨⟨200, some s0, c0⟩, 409, ⟨200, some s1, c1⟩, 201⟩
        token owner repo row =
      [GhAction.getContents, GhAction.putContents (c0 ++ csvRowLine row) (some s0),
       GhAction.getContents, GhAction.putContents (c0 ++ csvRowLine row) (some s1)] := by
  unfold append_row_and_push_to_github ghPutPhase
  simp [ht, ho, hr, newCsvContent, shaPayload, hc0, hs0, hs1]

theorem gh_append_conflict_retry_resends_original_witness :
    append_row_and_push_to_github
        ⟨⟨200, some "sha0", "H\nrow1\n"⟩, 409, ⟨200, some "sha9", "H\nrow1\nrow2\n"⟩, 201⟩
        (some "tk") (some "ow") (some "rp") ["y"] =
      [GhAction.getContents, GhAction.putContents ("H\nrow1\n" ++ csvRowLine ["y"]) (some "sha0"),
       GhAction.getContents, GhAction.putContents ("H\nrow1\n" ++ csvRowLine ["y"]) (some "sha9")] :=
  gh_append_conflict_retry_resends_original (some "tk") (some "ow") (some "rp") ["y"]
    "H\nrow1\n" "H\nrow1\nrow2\n" "sha0" "sha9" rfl rfl rfl
    (by decide) (by decide) (by decide)


theorem takeWhile_all (p : Char → Bool) : ∀ l : List Char, (l.takeWhile p).all p = true := by
  intro l
  induction l with
  | nil => rfl
  | cons c cs ih =>
    by_cases h : p c
    · simp [List.takeWhile_cons, h, ih]
    · simp [List.takeWhile_cons, h]

theorem takeWhile_append_all (p : Char → Bool) :
    ∀ (a b : List Char), a.all p = true →
      (a ++ b).takeWhile p = a ++ b.takeWhile p ∧ (a ++ b).dropWhile p = b.dropWhile p := by
  intro a
  induction a with
  | nil => intro b _; simp
  | cons c cs ih =>
    intro b h
    simp only [List.all_cons, Bool.and_eq_true] at h
    have h2 := ih b h.2
    simp [List.takeWhile_cons, List.dropWhile_cons, h.1, h2.1, h2.2]

theorem dropWhile_eq_self_of (p : Char → Bool) (l : List Char)
    (h : ∀ c ∈ l, p c = false) : l.dropWhile p = l := by
  cases l with
  | nil => rfl
  | cons c cs => simp [List.dropWhile_cons, h c (by simp)]

theorem stripList_id (l : List Char) (h : ∀ c ∈ l, pyIsSpace c = false) : stripList l = l := by
  unfold stripList dropEndWhile
  rw [dropWhile_eq_self_of pyIsSpace l h,
      dropWhile_eq_self_of pyIsSpace l.reverse (fun c hc => h c (List.mem_reverse.mp hc)),
      List.reverse_reverse]

theorem mapReplace_id (a b : Char) : ∀ l : List Char, (∀ c ∈ l, ¬ c = a) → mapReplace a b l = l := by
  intro l
  induction l with
  | nil => intro _; rfl
  | cons c cs ih =>
    intro h
    unfold mapReplace at *
    simp only [List.map_cons, List.cons.injEq]
    constructor
    · simp [h c (by simp)]
    · exact ih (fun d hd => h d (by simp [hd]))

theorem pyIsSpace_char_facts (c : Char) (h : pyIsSpace c = true) :
    c.isDigit = false ∧ ¬ c = '.' ∧ ¬ c = '%' ∧ ¬ c = ',' := by
  simp only [pyIsSpace, Bool.or_eq_true, decide_eq_true_eq] at h
  rcases h with ((((h | h) | h) | h) | h) | h <;> subst h <;>
    exact ⟨by decide, by decide, by decide, by decide⟩

theorem digit_no_space_comma (c : Char) (h : c.isDigit = true) :
    pyIsSpace c = false ∧ ¬ c = ',' := by
  constructor
  · cases hs : pyIsSpace c with
    | false => rfl
    | true => exact absurd h (by simp [(pyIsSpace_char_facts c hs).1])
  · intro he; subst he; exact absurd h (by decide)

/-- The shape of the token captured by the percent regex: digits, optionally
followed by a dot and more digits. -/
def numTokShape (t : List Char) : Prop :=
  (t ≠ [] ∧ t.all Char.isDigit = true) ∨
  (∃ ds ds2, ds ≠ [] ∧ ds.all Char.isDigit = true ∧ ds2 ≠ [] ∧ ds2.all Char.isDigit = true ∧
     t = ds ++ '.' :: ds2)

theorem grabFrac_shape (rest : List Char) :
    grabFrac rest = [] ∨
      ∃ ds2, ds2 ≠ [] ∧ ds2.all Char.isDigit = true ∧ grabFrac rest = '.' :: ds2 := by
  match rest with
  | [] => exact Or.inl rfl
  | [c] => exact Or.inl rfl
  | c :: d :: r2 =>
    by_cases h : c = '.' ∧ d.isDigit = true
    · right
      refine ⟨(d :: r2).takeWhile Char.isDigit, ?_, takeWhile_all _ _, ?_⟩
      · simp [List.takeWhile_cons, h.2]
      · simp [grabFrac, h.1, h.2]
    · left
      simp only [grabFrac]
      rw [if_neg]
      intro hb
      simp only [Bool.and_eq_true, decide_eq_true_eq] at hb
      exact h hb

theorem grabNum_shape (c : Char) (cs : List Char) (h : c.isDigit = true) :
    numTokShape (grabNum (c :: cs)) := by
  unfold grabNum
  have hts : (c :: cs).takeWhile Char.isDigit = c :: cs.takeWhile Char.isDigit := by
    simp [List.takeWhile_cons, h]
  rcases grabFrac_shape ((c :: cs).dropWhile Char.isDigit) with hf | ⟨ds2, h1, h2, hf⟩
  · left
    rw [hf, List.append_nil]
    exact ⟨by rw [hts]; simp, takeWhile_all _ _⟩
  · right
    exact ⟨(c :: cs).takeWhile Char.isDigit, ds2, by rw [hts]; simp,
           takeWhile_all _ _, h1, h2, by rw [hf]⟩

theorem findNum_shape : ∀ (l : List Char) (t : List Char), findNum l = some t → numTokShape t := by
  intro l
  induction l with
  | nil => intro t h; simp [findNum] at h
  | cons c cs ih =>
    intro t h
    unfold findNum at h
    split at h
    · rename_i hd
      injection h with h2
      rw [← h2]
      exact grabNum_shape c cs hd
    · exact ih t h

theorem norm_percent_shape (s : String) :
    _norm_percent s = "" ∨
      ∃ t, numTokShape t ∧ _norm_percent s = String.mk (t ++ ['%']) := by
  unfold _norm_percent
  split
  · exact Or.inl rfl
  · cases hf : findNum (mapReplace ',' '.' (stripList s.data)) with
    | none => simp [hf]
    | some t =>
      right
      exact ⟨t, findNum_shape _ t hf, by simp [hf]; rfl⟩

theorem data_mk (l : List Char) : (String.mk l).data = l := rfl

theorem data_append (a b : String) : (a ++ b).data = a.data ++ b.data := rfl

theorem mk_append_pct (t : List Char) : String.mk t ++ "%" = String.mk (t ++ ['%']) := rfl

theorem numTok_chars (t : List Char) (h : numTokShape t) :
    ∀ c ∈ t ++ ['%'], pyIsSpace c = false ∧ ¬ c = ',' := by
  intro c hc
  rcases List.mem_append.mp hc with hc | hc
  · rcases h with ⟨hne, hall⟩ | ⟨ds, ds2, hne, hall, hne2, hall2, ht⟩
    · exact digit_no_space_comma c (List.all_eq_true.mp hall c hc)
    · rw [ht] at hc
      rcases List.mem_append.mp hc with hc | hc
      · exact digit_no_space_comma c (List.all_eq_true.mp hall c hc)
      · rcases List.mem_cons.mp hc with hc | hc
        · subst hc; exact ⟨by decide, by decide⟩
        · exact digit_no_space_comma c (List.all_eq_true.mp hall2 c hc)
  · rcases List.mem_singleton.mp hc with rfl
    exact ⟨by decide, by decide⟩

theorem numTok_isPct (t : List Char) (h : numTokShape t) :
    isPctShape (String.mk (t ++ ['%'])) = true := by
  have hp : ('%').isDigit = false := by decide
  have hdot : ('.').isDigit = false := by decide
  rcases h with ⟨hne, hall⟩ | ⟨ds, ds2, hne, hall, hne2, hall2, ht⟩
  · obtain ⟨d, t', rfl⟩ := List.exists_cons_of_ne_nil hne
    have h1 := takeWhile_append_all Char.isDigit (d :: t') ['%'] hall
    simp only [isPctShape, data_mk, h1.1, h1.2]
    simp [List.takeWhile_cons, List.dropWhile_cons, hp]
  · subst ht
    obtain ⟨d, ds', rfl⟩ := List.exists_cons_of_ne_nil hne
    obtain ⟨e, ds2', rfl⟩ := List.exists_cons_of_ne_nil hne2
    have he : e.isDigit = true := List.all_eq_true.mp hall2 e (by simp)
    have hassoc : ((d :: ds' ++ '.' :: e :: ds2') ++ ['%']) =
        (d :: ds') ++ ('.' :: ((e :: ds2') ++ ['%'])) := by simp
    have h1 := takeWhile_append_all Char.isDigit (d :: ds') ('.' :: ((e :: ds2') ++ ['%'])) hall
    have h2 := takeWhile_append_all Char.isDigit (e :: ds2') ['%'] hall2
    simp only [isPctShape, data_mk, hassoc, h1.1, h1.2]
    simp only [List.takeWhile_cons, List.dropWhile_cons, hdot]
    simp only [List.cons_append] at h2
    simp [h2.1, h2.2, he, hp, List.takeWhile_cons, List.dropWhile_cons]

theorem norm_pctOk (s : String) :
    _norm_percent s = "" ∨ isPctShape (_norm_percent s) = true := by
  rcases norm_percent_shape s with h | ⟨t, ht, he⟩
  · exact Or.inl h
  · rw [he]
    exact Or.inr (numTok_isPct t ht)

theorem grabNum_int (t : List Char) (hall : t.all Char.isDigit = true) :
    grabNum (t ++ ['%']) = t := by
  unfold grabNum
  have h1 := takeWhile_append_all Char.isDigit t ['%'] hall
  rw [h1.1, h1.2]
  simp [grabFrac]

theorem grabNum_frac (ds ds2 : List Char) (hall : ds.all Char.isDigit = true)
    (hne2 : ds2 ≠ []) (hall2 : ds2.all Char.isDigit = true) :
    grabNum ((ds ++ '.' :: ds2) ++ ['%']) = ds ++ '.' :: ds2 := by
  unfold grabNum
  have hassoc : (ds ++ '.' :: ds2) ++ ['%'] = ds ++ '.' :: (ds2 ++ ['%']) := by simp
  rw [hassoc]
  have h1 := takeWhile_append_all Char.isDigit ds ('.' :: (ds2 ++ ['%'])) hall
  have h2 := takeWhile_append_all Char.isDigit ds2 ['%'] hall2
  rw [h1.1, h1.2]
  simp only [List.takeWhile_cons, List.dropWhile_cons]
  obtain ⟨e, ds2', rfl⟩ := List.exists_cons_of_ne_nil hne2
  have he : e.isDigit = true := (List.all_eq_true.mp hall2) e (by simp)
  have hdot : ('.').isDigit = false := by decide
  simp only [hdot, Bool.false_eq_true, if_false, List.cons_append]
  simp only [List.cons_append] at h2
  simp [grabFrac, he, h2.1]

theorem findNum_head_digit (d : Char) (r : List Char) (hd : d.isDigit = true) :
    findNum (d :: r) = some (grabNum (d :: r)) := by
  unfold findNum
  rw [if_pos hd]

theorem norm_percent_fix (t : List Char) (h : numTokShape t) :
    _norm_percent (String.mk (t ++ ['%'])) = String.mk (t ++ ['%']) := by
  have hne : ¬ String.mk (t ++ ['%']) = "" := by
    intro he
    have h2 := congrArg String.data he
    simp [data_mk] at h2
  unfold _norm_percent
  rw [if_neg hne, data_mk,
      stripList_id _ (fun c hc => (numTok_chars t h c hc).1),
      mapReplace_id ',' '.' _ (fun c hc => (numTok_chars t h c hc).2)]
  rcases h with ⟨hne1, hall⟩ | ⟨ds, ds2, hne1, hall, hne2, hall2, ht⟩
  · obtain ⟨d, t', rfl⟩ := List.exists_cons_of_ne_nil hne1
    rw [List.cons_append,
        findNum_head_digit d (t' ++ ['%']) (List.all_eq_true.mp hall d (by simp)),
        ← List.cons_append, grabNum_int (d :: t') hall]
    exact mk_append_pct (d :: t')
  · subst ht
    obtain ⟨d, ds', rfl⟩ := List.exists_cons_of_ne_nil hne1
    have hg := grabNum_frac (d :: ds') ds2 hall hne2 hall2
    have hstep : ((d :: ds') ++ '.' :: ds2) ++ ['%'] = d :: ((ds' ++ '.' :: ds2) ++ ['%']) := by
      simp
    rw [hstep] at hg
    have hd : d.isDigit = true := List.all_eq_true.mp hall d (by simp)
    calc (match findNum (d :: ds' ++ '.' :: ds2 ++ ['%']) with
            | some t => String.mk t ++ "%"
            | none => "") =
        (match findNum (d :: ((ds' ++ '.' :: ds2) ++ ['%'])) with
            | some t => String.mk t ++ "%"
            | none => "") := by simp
      _ = String.mk (d :: ds' ++ '.' :: ds2) ++ "%" := by
            rw [findNum_head_digit d ((ds' ++ '.' :: ds2) ++ ['%']) hd, hg]
      _ = String.mk ((d :: ds' ++ '.' :: ds2) ++ ['%']) := mk_append_pct _
      _ = String.mk (d :: ds' ++ '.' :: ds2 ++ ['%']) := by simp

/-- C7: the percent normalizer is a retract -- renormalizing any normalized
value returns it unchanged -- and in particular `"12.5%"` normalizes to
itself (trim, commas to dots, first numeric token, trailing percent; empty
when no numeric token exists). -/
theorem norm_percent_idempotent :
    (∀ s : String, _norm_percent (_norm_percent s) = _norm_percent s) ∧
    _norm_percent "12.5%" = "12.5%" := by
  constructor
  · intro s
    rcases norm_percent_shape s with h | ⟨t, ht, he⟩
    · rw [h]; rfl
    · rw [he]
      exact norm_percent_fix t ht
  · decide

theorem recoverCode_shape (text code0 : String) :
    recoverCode text code0 = "" ∨ codeOk (recoverCode text code0) = true := by
  unfold recoverCode
  by_cases h0 : (_take_10digits code0 == "") = true
  · rw [if_pos h0]
    by_cases hg : (_take_10digits text == "") = true
    · rw [if_pos hg]
      by_cases hu : strStarts (pyUpper code0) "UNKNOWN" = true
      · rw [if_pos hu]
        right
        have hne : (code0 == "") = false := by
          cases he : (code0 == "") with
          | false => rfl
          | true =>
            have hc : code0 = "" := by simpa using he
            subst hc
            exact absurd hu (by decide)
        simp [codeOk, hne, hu]
      · rw [if_neg hu]
        exact Or.inl rfl
    · rw [if_neg hg]
      right
      have hgf : (_take_10digits text == "") = false := by
        cases he : (_take_10digits text == "") with
        | false => rfl
        | true => exact absurd he hg
      rcases take10_shape text with h10 | h10
      · rw [h10] at hgf; simp at hgf
      · simp [codeOk, hgf, h10]
  · right
    rw [if_neg h0]
    have h0f : (_take_10digits code0 == "") = false := by
      cases he : (_take_10digits code0 == "") with
      | false => rfl
      | true => exact absurd he h0
    have hne : (code0 == "") = false := by
      cases he : (code0 == "") with
      | false => rfl
      | true =>
        have hc : code0 = "" := by simpa using he
        subst hc
        exact absurd (by decide : (_take_10digits "" == "") = true) h0
    simp [codeOk, hne, h0f]

theorem codeOk_default (text code0 : String) :
    codeOk (if recoverCode text code0 == "" then "UNKNOWN" else recoverCode text code0) = true := by
  by_cases hz : (recoverCode text code0 == "") = true
  · rw [if_pos hz]
    decide
  · rw [if_neg hz]
    rcases recoverCode_shape text code0 with h | h
    · exact absurd (by simp [h]) hz
    · exact h

theorem pctOk_default (s : String) :
    pctOk (if _norm_percent s == "" then "UNKNOWN" else _norm_percent s) = true := by
  by_cases hz : (_norm_percent s == "") = true
  · rw [if_pos hz]
    decide
  · rw [if_neg hz]
    rcases norm_pctOk s with h | h
    · exact absurd (by simp [h]) hz
    · simp [pctOk, h]

/-- C2 counterexample: the reply is a perfectly well-formed JSON object whose
`code` field is `"[1234567890]"`; the field contains a standalone ten-digit
run, so `detect` keeps it verbatim, and the assembled record's code is neither
a ten-digit string nor the literal `UNKNOWN`. -/
theorem detect_code_shape_cex :
    (detectAssemble "\x7b\"code\": \"[1234567890]\"\x7d").map DetectOut.code =
      Except.ok "[1234567890]" ∧
    isTenDigits "[1234567890]" = false ∧ ¬ "[1234567890]" = "UNKNOWN" :=
  ⟨rfl, by decide, by decide⟩

/-- C2 (amended): whenever the assembly pipeline completes without a dynamic
type error (a truthy non-string in `code`, `duty`, `vat` or a narrative field
raises instead), the record's `code` is non-empty and is the `UNKNOWN`
default, exactly ten digits, a string containing a standalone ten-digit run
(kept verbatim), or a string starting with `UNKNOWN` case-insensitively; and
`duty` and `vat` are each `UNKNOWN` or a decimal number followed by `%`.  All
narrative, list and payment fields are present by construction. -/
theorem detect_result_shapes (reply : String) (out : DetectOut)
    (h : detectAssemble reply = Except.ok out) :
    codeOk out.code = true ∧ pctOk out.duty = true ∧ pctOk out.vat = true := by
  unfold detectAssemble assembleFrom at h
  cases h1 : pyFieldStr (jgetN (detectData (pyStrip reply)) "code") with
  | error e => rw [h1] at h; simp [Except.bind] at h
  | ok codeRaw =>
  rw [h1] at h
  simp only [Except.bind] at h
  cases h2 : pyFieldStr (jgetN (detectData (pyStrip reply)) "duty") with
  | error e => rw [h2] at h; simp at h
  | ok dutyRaw =>
  rw [h2] at h
  simp only at h
  cases h3 : pyFieldStr (jgetN (detectData (pyStrip reply)) "vat") with
  | error e => rw [h3] at h; simp at h
  | ok vatRaw =>
  rw [h3] at h
  simp only at h
  cases h4 : pyFieldStr (jgetN (detectData (pyStrip reply)) "description") with
  | error e => rw [h4] at h; simp at h
  | ok descr =>
  rw [h4] at h
  simp only at h
  cases h5 : pyFieldStr (jgetN (detectData (pyStrip reply)) "classification_reason") with
  | error e => rw [h5] at h; simp at h
  | ok creason =>
  rw [h5] at h
  simp only at h
  rw [Except.ok.injEq] at h
  subst h
  exact ⟨codeOk_default (pyStrip reply) (pyStrip codeRaw),
         pctOk_default dutyRaw, pctOk_default vatRaw⟩

theorem detect_result_shapes_witness :
    codeOk (DetectOut.code ⟨"UNKNOWN", "UNKNOWN", "UNKNOWN", "", "", "", "", [],
        ⟨"UNKNOWN", "UNKNOWN", "—", "—"⟩, []⟩) = true ∧
    pctOk (DetectOut.duty ⟨"UNKNOWN", "UNKNOWN", "UNKNOWN", "", "", "", "", [],
        ⟨"UNKNOWN", "UNKNOWN", "—", "—"⟩, []⟩) = true ∧
    pctOk (DetectOut.vat ⟨"UNKNOWN", "UNKNOWN", "UNKNOWN", "", "", "", "", [],
        ⟨"UNKNOWN", "UNKNOWN", "—", "—"⟩, []⟩) = true :=
  detect_result_shapes ""
    ⟨"UNKNOWN", "UNKNOWN", "UNKNOWN", "", "", "", "", [],
     ⟨"UNKNOWN", "UNKNOWN", "—", "—"⟩, []⟩ rfl

/-- Every whitespace-class character of the list is the plain space. -/
def spacesBlank (l : List Char) : Prop := ∀ c ∈ l, pyIsSpace c = true → c = ' '

/-- No two adjacent whitespace characters. -/
def noDbl (l : List Char) : Prop :=
  List.Chain' (fun a b => ¬(pyIsSpace a = true ∧ pyIsSpace b = true)) l

/-- The head, when present, is not whitespace. -/
def headNotSp (l : List Char) : Prop := ∀ c, l.head? = some c → pyIsSpace c = false

theorem collapseAux_cons (f : Bool) (c : Char) (cs : List Char) :
    collapseAux f (c :: cs) =
      if pyIsSpace c then (if f then collapseAux true cs else ' ' :: collapseAux true cs)
      else c :: collapseAux false cs := rfl

theorem collapse_spacesBlank : ∀ (l : List Char) (f : Bool), spacesBlank (collapseAux f l) := by
  intro l
  induction l with
  | nil => intro f c hc; simp [collapseAux] at hc
  | cons c cs ih =>
    intro f d hd hsp
    rw [collapseAux_cons] at hd
    by_cases h : pyIsSpace c = true
    · rw [if_pos h] at hd
      cases f with
      | true => rw [if_pos rfl] at hd; exact ih true d hd hsp
      | false =>
        rw [if_neg (by simp)] at hd
        rcases List.mem_cons.mp hd with rfl | hd
        · rfl
        · exact ih true d hd hsp
    · rw [if_neg h] at hd
      rcases List.mem_cons.mp hd with rfl | hd
      · exact absurd hsp h
      · exact ih false d hd hsp

theorem collapse_noDbl_head : ∀ (l : List Char) (f : Bool),
    noDbl (collapseAux f l) ∧ (f = true → headNotSp (collapseAux f l)) := by
  intro l
  induction l with
  | nil =>
    intro f
    exact ⟨List.chain'_nil, fun _ c hc => by simp [collapseAux] at hc⟩
  | cons c cs ih =>
    intro f
    by_cases h : pyIsSpace c = true
    · cases f with
      | true =>
        have he : collapseAux true (c :: cs) = collapseAux true cs := by
          rw [collapseAux_cons, if_pos h, if_pos rfl]
        rw [he]
        exact ⟨(ih true).1, fun _ => (ih true).2 rfl⟩
      | false =>
        have he : collapseAux false (c :: cs) = ' ' :: collapseAux true cs := by
          rw [collapseAux_cons, if_pos h]
          rfl
        rw [he]
        constructor
        · unfold noDbl
          rw [List.chain'_cons']
          refine ⟨?_, (ih true).1⟩
          intro y hy hcon
          have hns := (ih true).2 rfl y (Option.mem_def.mp hy)
          rw [hns] at hcon
          exact absurd hcon.2 (by simp)
        · intro hf
          exact absurd hf (by simp)
    · have he : collapseAux f (c :: cs) = c :: collapseAux false cs := by
        rw [collapseAux_cons, if_neg h]
      rw [he]
      constructor
      · unfold noDbl
        rw [List.chain'_cons']
        exact ⟨fun y _ hcon => absurd hcon.1 h, (ih false).1⟩
      · intro _ d hd
        simp only [List.head?, Option.some.injEq] at hd
        subst hd
        simpa using h

theorem collapse_fix : ∀ l : List Char, spacesBlank l → noDbl l →
    collapseAux false l = l ∧ (headNotSp l → collapseAux true l = l) := by
  intro l
  induction l with
  | nil => intro _ _; exact ⟨rfl, fun _ => rfl⟩
  | cons c cs ih =>
    intro hsb hnd
    have hsb2 : spacesBlank cs := fun d hd => hsb d (by simp [hd])
    have hnd2 : noDbl cs := (List.chain'_cons'.mp hnd).2
    by_cases h : pyIsSpace c = true
    · have hc : c = ' ' := hsb c (by simp) h
      have hhead : headNotSp cs := by
        intro d hd
        have h2 := (List.chain'_cons'.mp hnd).1 d (Option.mem_def.mpr hd)
        cases hsd : pyIsSpace d with
        | false => rfl
        | true => exact absurd ⟨h, hsd⟩ h2
      constructor
      · rw [collapseAux_cons, if_pos h, if_neg (by simp), (ih hsb2 hnd2).2 hhead, hc]
      · intro hhl
        exact absurd (hhl c rfl) (by simp [h])
    · constructor
      · rw [collapseAux_cons, if_neg h, (ih hsb2 hnd2).1]
      · intro _
        rw [collapseAux_cons, if_neg h, (ih hsb2 hnd2).1]

theorem mem_mapReplace (a b : Char) (l : List Char) (c : Char) (h : c ∈ mapReplace a b l) :
    c = b ∨ c ∈ l := by
  rcases List.mem_map.mp h with ⟨d, hd, he⟩
  by_cases hda : d = a
  · subst hda; rw [if_pos rfl] at he; exact Or.inl he.symm
  · rw [if_neg hda] at he; subst he; exact Or.inr hd

theorem not_mem_mapReplace_self (a b : Char) (hne : ¬ b = a) (l : List Char) :
    a ∉ mapReplace a b l := by
  intro h
  rcases List.mem_map.mp h with ⟨d, hd, he⟩
  by_cases hda : d = a
  · subst hda; rw [if_pos rfl] at he; exact hne he
  · rw [if_neg hda] at he; exact hda he

theorem stripList_app (l : List Char) :
    ∃ t, stripList l ++ t = l.dropWhile pyIsSpace := by
  obtain ⟨u, hu⟩ := List.dropWhile_suffix (l := (l.dropWhile pyIsSpace).reverse) pyIsSpace
  refine ⟨u.reverse, ?_⟩
  have h2 := congrArg List.reverse hu
  rw [List.reverse_append, List.reverse_reverse] at h2
  exact h2

theorem mem_dropWhile_sp (l : List Char) (c : Char) (h : c ∈ l.dropWhile pyIsSpace) : c ∈ l :=
  (List.dropWhile_suffix pyIsSpace).sublist.subset h

theorem mem_stripList (l : List Char) (c : Char) (h : c ∈ stripList l) : c ∈ l := by
  obtain ⟨t, ht⟩ := stripList_app l
  exact mem_dropWhile_sp l c (by rw [← ht]; exact List.mem_append_left t h)

theorem noDbl_reverse (l : List Char) (h : noDbl l) : noDbl l.reverse := by
  unfold noDbl at h ⊢
  rw [List.chain'_reverse]
  exact h.imp (fun a b hab hcon => hab ⟨hcon.2, hcon.1⟩)

theorem noDbl_dropWhile_sp (l : List Char) (h : noDbl l) : noDbl (l.dropWhile pyIsSpace) :=
  List.Chain'.suffix h (List.dropWhile_suffix pyIsSpace)

theorem noDbl_stripList (l : List Char) (h : noDbl l) : noDbl (stripList l) :=
  noDbl_reverse _ (noDbl_dropWhile_sp _ (noDbl_reverse _ (noDbl_dropWhile_sp l h)))

theorem headNotSp_dropWhile (l : List Char) : headNotSp (l.dropWhile pyIsSpace) := by
  induction l with
  | nil => intro c hc; simp at hc
  | cons c cs ih =>
    by_cases h : pyIsSpace c = true
    · rw [List.dropWhile_cons, if_pos h]; exact ih
    · rw [List.dropWhile_cons, if_neg h]
      intro d hd
      simp only [List.head?, Option.some.injEq] at hd
      subst hd
      simpa using h

theorem headNotSp_stripList (l : List Char) : headNotSp (stripList l) := by
  intro c hc
  obtain ⟨t, ht⟩ := stripList_app l
  cases hs : stripList l with
  | nil => rw [hs] at hc; simp at hc
  | cons d rest =>
    rw [hs] at hc
    simp only [List.head?, Option.some.injEq] at hc
    subst hc
    rw [hs] at ht
    exact headNotSp_dropWhile l d (by rw [← ht]; rfl)

theorem headNotSp_stripList_reverse (l : List Char) : headNotSp (stripList l).reverse := by
  unfold stripList dropEndWhile
  rw [List.reverse_reverse]
  exact headNotSp_dropWhile _

theorem dropWhile_eq_self_of_head (l : List Char) (h : headNotSp l) :
    l.dropWhile pyIsSpace = l := by
  cases l with
  | nil => rfl
  | cons c cs => rw [List.dropWhile_cons, if_neg (by simp [h c rfl])]

theorem stripList_eq_self (l : List Char) (h1 : headNotSp l) (h2 : headNotSp l.reverse) :
    stripList l = l := by
  unfold stripList dropEndWhile
  rw [dropWhile_eq_self_of_head l h1, dropWhile_eq_self_of_head l.reverse h2,
      List.reverse_reverse]

theorem pyIsSpace_mapReplace (a b : Char) (ha : pyIsSpace a = pyIsSpace b) (c : Char) :
    pyIsSpace (if c = a then b else c) = pyIsSpace c := by
  by_cases h : c = a
  · rw [if_pos h, h, ha]
  · rw [if_neg h]

theorem noDbl_mapReplace (a b : Char) (ha : pyIsSpace a = pyIsSpace b) (l : List Char)
    (h : noDbl l) : noDbl (mapReplace a b l) := by
  unfold noDbl mapReplace
  rw [List.chain'_map]
  refine h.imp ?_
  intro x y hxy hcon
  refine hxy ⟨?_, ?_⟩
  · rw [← pyIsSpace_mapReplace a b ha x]; exact hcon.1
  · rw [← pyIsSpace_mapReplace a b ha y]; exact hcon.2

theorem spacesBlank_mapReplace (a b : Char) (hb : pyIsSpace b = true → b = ' ')
    (l : List Char) (h : spacesBlank l) : spacesBlank (mapReplace a b l) := by
  intro c hc hsp
  rcases mem_mapReplace a b l c hc with rfl | hc
  · exact hb hsp
  · exact h c hc hsp

theorem headNotSp_mapReplace (a b : Char) (ha : pyIsSpace a = pyIsSpace b) (l : List Char)
    (h : headNotSp l) : headNotSp (mapReplace a b l) := by
  intro c hc
  unfold mapReplace at hc
  rw [List.head?_map] at hc
  cases hl : l.head? with
  | none => rw [hl] at hc; simp at hc
  | some d =>
    rw [hl] at hc
    simp only [Option.map_some', Option.some.injEq] at hc
    subst hc
    rw [pyIsSpace_mapReplace a b ha d]
    exact h d hl

theorem cleanCore_props (l : List Char) :
    spacesBlank (cleanCore l) ∧ noDbl (cleanCore l) ∧ headNotSp (cleanCore l) ∧
      headNotSp (cleanCore l).reverse ∧ (';') ∉ cleanCore l := by
  unfold cleanCore
  refine ⟨?_, ?_, ?_, ?_, ?_⟩
  · exact spacesBlank_mapReplace ';' ',' (by decide) _
      (fun c hc => collapse_spacesBlank _ false c (mem_stripList _ c hc))
  · exact noDbl_mapReplace ';' ',' (by decide) _
      (noDbl_stripList _ (collapse_noDbl_head _ false).1)
  · exact headNotSp_mapReplace ';' ',' (by decide) _ (headNotSp_stripList _)
  · rw [show mapReplace ';' ','
        (stripList (collapseWs (mapReplace '\n' ' ' (mapReplace '\r' ' ' l)))) =
        List.map (fun c => if c = ';' then ',' else c)
          (stripList (collapseWs (mapReplace '\n' ' ' (mapReplace '\r' ' ' l)))) from rfl,
       ← List.map_reverse]
    exact headNotSp_mapReplace ';' ',' (by decide) _ (headNotSp_stripList_reverse _)
  · exact not_mem_mapReplace_self ';' ',' (by decide) _

theorem cleanCore_fix (m : List Char)
    (hsb : spacesBlank m) (hnd : noDbl m) (hh : headNotSp m) (hl : headNotSp m.reverse)
    (hs : (';') ∉ m) : cleanCore m = m := by
  unfold cleanCore
  have hnr : ∀ c ∈ m, ¬ c = '\r' := by
    intro c hc hce
    subst hce
    exact absurd (hsb _ hc (by decide)) (by decide)
  have hnn : ∀ c ∈ m, ¬ c = '\n' := by
    intro c hc hce
    subst hce
    exact absurd (hsb _ hc (by decide)) (by decide)
  rw [mapReplace_id '\r' ' ' m hnr, mapReplace_id '\n' ' ' m hnn]
  have hcw : collapseWs m = m := (collapse_fix m hsb hnd).1
  rw [hcw, stripList_eq_self m hh hl,
      mapReplace_id ';' ',' m (fun c hc hce => hs (hce ▸ hc))]

theorem cleanCore_idem (l : List Char) : cleanCore (cleanCore l) = cleanCore l := by
  obtain ⟨h1, h2, h3, h4, h5⟩ := cleanCore_props l
  exact cleanCore_fix _ h1 h2 h3 h4 h5

/-- C9: the log-field cleaner is idempotent -- cleaning an already-cleaned
value returns it unchanged, since the cleaner's output holds no carriage
returns, newlines, semicolons, doubled whitespace, or surrounding
whitespace. -/
theorem clean_field_idempotent (v : JVal) :
    _clean_field (JVal.str (_clean_field v)) = _clean_field v := by
  cases v with
  | null => rfl
  | bool b => exact congrArg String.mk (cleanCore_idem (pyStr (JVal.bool b)).data)
  | intg n => exact congrArg String.mk (cleanCore_idem (pyStr (JVal.intg n)).data)
  | str s => exact congrArg String.mk (cleanCore_idem (pyStr (JVal.str s)).data)
  | arr a => exact congrArg String.mk (cleanCore_idem (pyStr (JVal.arr a)).data)
  | obj o => exact congrArg String.mk (cleanCore_idem (pyStr (JVal.obj o)).data)

theorem clean_field_no_semi (v : JVal) : (';') ∉ (_clean_field v).data := by
  cases v with
  | null => simp [_clean_field]
  | bool b => exact (cleanCore_props (pyStr (JVal.bool b)).data).2.2.2.2
  | intg n => exact (cleanCore_props (pyStr (JVal.intg n)).data).2.2.2.2
  | str s => exact (cleanCore_props (pyStr (JVal.str s)).data).2.2.2.2
  | arr a => exact (cleanCore_props (pyStr (JVal.arr a)).data).2.2.2.2
  | obj o => exact (cleanCore_props (pyStr (JVal.obj o)).data).2.2.2.2

theorem cleanCore_no_nl_cr (l : List Char) :
    ('\n') ∉ cleanCore l ∧ ('\r') ∉ cleanCore l := by
  have hsb := (cleanCore_props l).1
  constructor
  · intro h; exact absurd (hsb _ h (by decide)) (by decide)
  · intro h; exact absurd (hsb _ h (by decide)) (by decide)

theorem clean_field_no_ctrl (v : JVal) :
    ('\n') ∉ (_clean_field v).data ∧ ('\r') ∉ (_clean_field v).data := by
  cases v with
  | null => simp [_clean_field]
  | bool b => exact cleanCore_no_nl_cr (pyStr (JVal.bool b)).data
  | intg n => exact cleanCore_no_nl_cr (pyStr (JVal.intg n)).data
  | str s => exact cleanCore_no_nl_cr (pyStr (JVal.str s)).data
  | arr a => exact cleanCore_no_nl_cr (pyStr (JVal.arr a)).data
  | obj o => exact cleanCore_no_nl_cr (pyStr (JVal.obj o)).data

theorem escDouble_mem (l : List Char) (c : Char) (h : c ∈ escDouble l) : c ∈ l := by
  induction l with
  | nil => simp [escDouble] at h
  | cons d ds ih =>
    unfold escDouble at h
    by_cases hd : d = quoteD
    · rw [if_pos hd] at h
      rcases List.mem_cons.mp h with rfl | h
      · simp
      · rcases List.mem_cons.mp h with rfl | h
        · simp
        · simp [ih h]
    · rw [if_neg hd] at h
      rcases List.mem_cons.mp h with rfl | h
      · simp
      · simp [ih h]

theorem csvQuote_no_semi (f : String) (h : (';') ∉ f.data) : (';') ∉ (csvQuote f).data := by
  unfold csvQuote
  by_cases hq : csvNeedsQuote f = true
  · rw [if_pos hq, data_mk]
    intro hc
    rcases List.mem_cons.mp hc with he | hc
    · exact absurd he (by decide)
    · rcases List.mem_append.mp hc with hc | hc
      · exact h (escDouble_mem _ _ hc)
      · exact absurd (List.mem_singleton.mp hc) (by decide)
  · rw [if_neg hq]
    exact h

theorem count_semi_csvQuote_clean (v : JVal) :
    ((csvQuote (_clean_field v)).data).count ';' = 0 :=
  List.count_eq_zero.mpr (csvQuote_no_semi _ (clean_field_no_semi v))

theorem count_joinWith_semi : ∀ parts : List String, parts ≠ [] →
    (∀ x ∈ parts, (x.data).count ';' = 0) →
    ((joinWith ";" parts).data).count ';' = parts.length - 1 := by
  intro parts
  induction parts with
  | nil => intro h; exact absurd rfl h
  | cons x rest ih =>
    intro _ hall
    cases rest with
    | nil => simpa using hall x (by simp)
    | cons y t =>
      have hj : joinWith ";" (x :: y :: t) = x ++ ";" ++ joinWith ";" (y :: t) := rfl
      rw [hj, data_append, data_append, List.count_append, List.count_append,
          hall x (by simp), ih (by simp) (fun z hz => hall z (by simp [hz]))]
      simp [Nat.add_comm]

theorem splitChAux_length (sep : Char) : ∀ (l cur : List Char),
    (splitChAux sep cur l).length = l.count sep + 1 := by
  intro l
  induction l with
  | nil => intro cur; rfl
  | cons c cs ih =>
    intro cur
    unfold splitChAux
    by_cases h : c = sep
    · rw [if_pos h]
      simp [ih [], List.count_cons, h]
    · rw [if_neg h]
      simp [ih (c :: cur), List.count_cons, h]

theorem pySplit_length (sep : Char) (s : String) :
    (pySplit sep s).length = s.data.count sep + 1 := by
  unfold pySplit
  rw [List.length_map]
  exact splitChAux_length sep s.data []

/-- C5: the cleaner leaves no semicolon, newline or carriage return in any
field, so a log row of nine cleaned fields, serialized by the csv writer and
re-split on `;`, always has exactly nine fields. -/
theorem logrow_nine_fields :
    (∀ v : JVal, (';') ∉ (_clean_field v).data ∧ ('\n') ∉ (_clean_field v).data ∧
       ('\r') ∉ (_clean_field v).data) ∧
    (∀ v0 v1 v2 v3 v4 v5 v6 v7 v8 : JVal,
      (pySplit ';' (csvRowLine
        ([v0, v1, v2, v3, v4, v5, v6, v7, v8].map _clean_field))).length = 9) := by
  constructor
  · intro v
    exact ⟨clean_field_no_semi v, (clean_field_no_ctrl v).1, (clean_field_no_ctrl v).2⟩
  · intro v0 v1 v2 v3 v4 v5 v6 v7 v8
    rw [pySplit_length]
    unfold csvRowLine
    rw [data_append, List.count_append]
    have hall : ∀ x ∈ ([v0, v1, v2, v3, v4, v5, v6, v7, v8].map _clean_field).map csvQuote,
        (x.data).count ';' = 0 := by
      intro x hx
      rcases List.mem_map.mp hx with ⟨f, hf, rfl⟩
      rcases List.mem_map.mp hf with ⟨v, _, rfl⟩
      exact count_semi_csvQuote_clean v
    rw [count_joinWith_semi _ (by simp) hall]
    simp

/-- C6 counterexample: the scalar `0` is non-null, yet the requirements
normalizer maps it to the empty sequence (Python truthiness), not to the
one-element sequence `["0"]` the claim requires for every non-null scalar. -/
theorem normalize_requirements_zero_cex :
    ¬ _normalize_requirements (JVal.intg 0) = ["0"] := by decide

/-- C6 (amended): a sequence is filtered to the non-empty trimmed string forms
of its elements; a string is split on runs of newline/semicolon, fragments are
dropped only when whitespace-trimming empties them and the survivors are then
trimmed of spaces, hyphens, bullets and tabs (a survivor of only such marks is
kept as an empty string), the original trimmed string being kept when nothing
survives; a *truthy* scalar becomes a one-element sequence while null, false,
zero, the empty dict and absent input all give the empty sequence.  In
particular `"Cert A; Cert B\nCert C"` splits into its three entries. -/
theorem normalize_requirements_spec :
    (∀ l : List JVal, _normalize_requirements (JVal.arr l) =
        (l.map (fun x => pyStrip (pyStr x))).filter (fun s => !(s == ""))) ∧
    (∀ s : String, _normalize_requirements (JVal.str s) =
        (if (((splitRuns s).filter (fun f => !(pyStrip f == ""))).map
              (stripBoth [' ', '-', '•', '\t'])).isEmpty
         then [pyStrip s]
         else ((splitRuns s).filter (fun f => !(pyStrip f == ""))).map
              (stripBoth [' ', '-', '•', '\t']))) ∧
    _normalize_requirements JVal.null = [] ∧
    (∀ b : Bool, _normalize_requirements (JVal.bool b) =
        if b then [pyStr (JVal.bool b)] else []) ∧
    (∀ n : Int, _normalize_requirements (JVal.intg n) =
        if n == 0 then [] else [pyStr (JVal.intg n)]) ∧
    (∀ kvs : List (String × JVal), _normalize_requirements (JVal.obj kvs) =
        if kvs.isEmpty then [] else [pyStr (JVal.obj kvs)]) ∧
    _normalize_requirements (JVal.str "Cert A; Cert B\nCert C") =
      ["Cert A", "Cert B", "Cert C"] := by
  refine ⟨fun l => rfl, fun s => rfl, rfl, ?_, ?_, ?_, by decide⟩
  · intro b
    cases b <;> rfl
  · intro n
    cases hn : (n == 0) with
    | true => simp [_normalize_requirements, jtruthy, hn]
    | false => simp [_normalize_requirements, jtruthy, hn]
  · intro kvs
    cases hk : kvs.isEmpty with
    | true => simp [_normalize_requirements, jtruthy, hk]
    | false => simp [_normalize_requirements, jtruthy, hk]
